import Mathlib

/-!
Verification development for the VLLM message-format adapter
(`packages/bytebot-agent/src/vllm/vllm.service.ts`).

The adapter translates between the internal content-block representation of a
conversation and the chat-completion wire format of a VLLM endpoint:

* `formatMessagesForVllm` flattens a system prompt plus conversation history
  into wire messages;
* `getToolName` resolves a tool-result back-reference to the originating
  tool-use block's name;
* `formatVllmResponse` parses a wire response's content back into internal
  content blocks.

The service serializes and parses JSON with the JavaScript `JSON.stringify`
and `JSON.parse` builtins.  Those builtins are modelled here by an executable
serializer and an executable fuel-indexed recursive-descent parser over a
`Json` value type (numbers are modelled as integers; string escaping covers
the quote, backslash and the common control characters; the parser accepts
interleaved whitespace).  The round-trip law `JSONparse (Json.stringify v) =
some v` is proved below and underpins the request/response round-trip
theorems.
-/

/-! ## JSON values

`Json` mirrors the JavaScript JSON value universe used by the service.  The
array and object payloads are represented by the mutually inductive
`JsonList` / `JsonObj` so that all functions over them are structural. -/

mutual

inductive Json where
  | null : Json
  | bool (b : Bool) : Json
  | num (n : Int) : Json
  | str (s : String) : Json
  | arr (xs : JsonList) : Json
  | obj (fs : JsonObj) : Json
  deriving DecidableEq

inductive JsonList where
  | nil : JsonList
  | cons (hd : Json) (tl : JsonList) : JsonList
  deriving DecidableEq

inductive JsonObj where
  | nil : JsonObj
  | cons (k : String) (v : Json) (tl : JsonObj) : JsonObj
  deriving DecidableEq

end

/-- Build a `JsonList` from an ordinary list. -/
def JsonList.ofList : List Json → JsonList
  | [] => .nil
  | v :: tl => .cons v (JsonList.ofList tl)

/-- Build a `JsonObj` from an ordinary association list. -/
def JsonObj.ofList : List (String × Json) → JsonObj
  | [] => .nil
  | (k, v) :: tl => .cons k v (JsonObj.ofList tl)

/-- JSON array literal from a plain list. -/
def jarr (l : List Json) : Json := .arr (JsonList.ofList l)

/-- JSON object literal from a plain association list. -/
def jobj (l : List (String × Json)) : Json := .obj (JsonObj.ofList l)

/-! ## Serialization (model of `JSON.stringify`) -/

/-- The decimal digit character for `d` (meaningful for `d < 10`). -/
def digitChar (d : Nat) : Char := Char.ofNat (48 + d)

/-- Decimal digits of `n`, most significant first, accumulated onto `acc`.
The fuel argument only needs to be at least `n` for the result to be the
digit string of `n`. -/
def natToDigitsAux : Nat → Nat → List Char → List Char
  | 0, _, acc => acc
  | fuel + 1, n, acc =>
    if n = 0 then acc
    else natToDigitsAux fuel (n / 10) (digitChar (n % 10) :: acc)

/-- Decimal digit string of a natural number (model of `Number.toString`). -/
def natToDigits (n : Nat) : List Char :=
  if n = 0 then ['0'] else natToDigitsAux n n []

/-- Decimal representation of an integer. -/
def intToChars : Int → List Char
  | Int.ofNat n => natToDigits n
  | Int.negSucc m => '-' :: natToDigits (m + 1)

/-- JSON string escaping of one character: quote, backslash and the common
control characters get a backslash escape; everything else is copied
verbatim. -/
def escChar (c : Char) : List Char :=
  if c = '"' then ['\\', '"']
  else if c = '\\' then ['\\', '\\']
  else if c = '\n' then ['\\', 'n']
  else if c = '\t' then ['\\', 't']
  else if c = '\r' then ['\\', 'r']
  else [c]

/-- JSON string escaping of a character sequence. -/
def escapeChars (cs : List Char) : List Char := cs.flatMap escChar

mutual

/-- Compact JSON serialization (model of `JSON.stringify` with no spacing). -/
def serializeV : Json → List Char
  | .null => "null".data
  | .bool true => "true".data
  | .bool false => "false".data
  | .num n => intToChars n
  | .str s => '"' :: (escapeChars s.data ++ ['"'])
  | .arr xs => '[' :: (serializeArr xs ++ [']'])
  | .obj fs => '\x7b' :: (serializeObjFields fs ++ ['\x7d'])

/-- Comma-joined serialization of array elements. -/
def serializeArr : JsonList → List Char
  | .nil => []
  | .cons v .nil => serializeV v
  | .cons v (.cons w tl) => serializeV v ++ ',' :: serializeArr (.cons w tl)

/-- Comma-joined serialization of object members (`"key":value`). -/
def serializeObjFields : JsonObj → List Char
  | .nil => []
  | .cons k v .nil => '"' :: (escapeChars k.data ++ '"' :: ':' :: serializeV v)
  | .cons k v (.cons k2 w tl) =>
    ('"' :: (escapeChars k.data ++ '"' :: ':' :: serializeV v)) ++
      ',' :: serializeObjFields (.cons k2 w tl)

end

/-- `JSON.stringify` (compact form) as a `String`-valued function. -/
def Json.stringify (v : Json) : String := String.mk (serializeV v)

mutual

/-- Pretty JSON serialization at indent `ind`, two-space indent step (model of
`JSON.stringify(v, null, 2)`). -/
def serializeP (ind : Nat) : Json → List Char
  | .arr .nil => ['[', ']']
  | .obj .nil => ['\x7b', '\x7d']
  | .arr xs =>
    '[' :: '\n' :: (serializePArr (ind + 2) xs ++
      '\n' :: (List.replicate ind ' ' ++ [']']))
  | .obj fs =>
    '\x7b' :: '\n' :: (serializePObj (ind + 2) fs ++
      '\n' :: (List.replicate ind ' ' ++ ['\x7d']))
  | v => serializeV v

/-- Pretty-printed array elements: one indented line per element. -/
def serializePArr (ind : Nat) : JsonList → List Char
  | .nil => []
  | .cons v .nil => List.replicate ind ' ' ++ serializeP ind v
  | .cons v (.cons w tl) =>
    (List.replicate ind ' ' ++ serializeP ind v) ++
      ',' :: '\n' :: serializePArr ind (.cons w tl)

/-- Pretty-printed object members: one indented `"key": value` line each. -/
def serializePObj (ind : Nat) : JsonObj → List Char
  | .nil => []
  | .cons k v .nil =>
    List.replicate ind ' ' ++
      ('"' :: (escapeChars k.data ++ '"' :: ':' :: ' ' :: serializeP ind v))
  | .cons k v (.cons k2 w tl) =>
    (List.replicate ind ' ' ++
      ('"' :: (escapeChars k.data ++ '"' :: ':' :: ' ' :: serializeP ind v))) ++
      ',' :: '\n' :: serializePObj ind (.cons k2 w tl)

end

/-- `JSON.stringify(v, null, 2)` as a `String`-valued function. -/
def Json.stringifyPretty (v : Json) : String := String.mk (serializeP 0 v)

/-! ## Parsing (model of `JSON.parse`) -/

/-- JSON whitespace characters. -/
def isWsChar (c : Char) : Bool :=
  c = ' ' || c = '\n' || c = '\t' || c = '\r'

/-- Drop leading JSON whitespace. -/
def skipWs : List Char → List Char
  | [] => []
  | c :: rest => if isWsChar c then skipWs rest else c :: rest

/-- Does the input start with a decimal digit? -/
def digitStart : List Char → Bool
  | [] => false
  | c :: _ => c.isDigit

/-- Consume a maximal run of decimal digits, folding them onto `acc`. -/
def parseDigitsAux : Nat → List Char → Nat × List Char
  | acc, [] => (acc, [])
  | acc, c :: rest =>
    if c.isDigit then parseDigitsAux (acc * 10 + (c.toNat - 48)) rest
    else (acc, c :: rest)

/-- Parse a nonempty run of decimal digits as a natural number. -/
def parseDigits : List Char → Option (Nat × List Char)
  | [] => none
  | c :: rest =>
    if c.isDigit then some (parseDigitsAux (c.toNat - 48) rest) else none

/-- Invert a one-character backslash escape. -/
def unescapeChar (c : Char) : Option Char :=
  if c = '"' then some '"'
  else if c = '\\' then some '\\'
  else if c = '/' then some '/'
  else if c = 'n' then some '\n'
  else if c = 't' then some '\t'
  else if c = 'r' then some '\r'
  else none

/-- Consume one expected character from the front of the input. -/
def splitHead (want : Char) : List Char → Option (List Char)
  | [] => none
  | c :: rest => if c = want then some rest else none

/-- Parse the body of a JSON string up to and including the closing quote,
returning the unescaped characters and the remaining input. -/
def parseStringBody : List Char → Option (List Char × List Char)
  | [] => none
  | c :: rest =>
    if c = '"' then some ([], rest)
    else if c = '\\' then
      match rest with
      | [] => none
      | e :: rest2 =>
        match unescapeChar e with
        | some u =>
          match parseStringBody rest2 with
          | some (cs, r) => some (u :: cs, r)
          | none => none
        | none => none
    else
      match parseStringBody rest with
      | some (cs, r) => some (c :: cs, r)
      | none => none

mutual

/-- Fuel-indexed recursive-descent JSON value parser.  Returns the parsed
value and the unconsumed remainder. -/
def parseValue : Nat → List Char → Option (Json × List Char)
  | 0, _ => none
  | fuel + 1, s =>
    match skipWs s with
    | [] => none
    | c :: rest =>
      if c = 'n' then
        match rest with
        | 'u' :: 'l' :: 'l' :: r => some (.null, r)
        | _ => none
      else if c = 't' then
        match rest with
        | 'r' :: 'u' :: 'e' :: r => some (.bool true, r)
        | _ => none
      else if c = 'f' then
        match rest with
        | 'a' :: 'l' :: 's' :: 'e' :: r => some (.bool false, r)
        | _ => none
      else if c = '"' then
        match parseStringBody rest with
        | some (cs, r) => some (.str (String.mk cs), r)
        | none => none
      else if c = '[' then
        match splitHead ']' (skipWs rest) with
        | some r2 => some (.arr .nil, r2)
        | none =>
          match parseElems fuel rest with
          | some (xs, r) => some (.arr xs, r)
          | none => none
      else if c = '\x7b' then
        match splitHead '\x7d' (skipWs rest) with
        | some r2 => some (.obj .nil, r2)
        | none =>
          match parseMembers fuel rest with
          | some (fs, r) => some (.obj fs, r)
          | none => none
      else if c = '-' then
        match parseDigits rest with
        | some (n, r) => some (.num (-(n : Int)), r)
        | none => none
      else if c.isDigit then
        match parseDigits (c :: rest) with
        | some (n, r) => some (.num (n : Int), r)
        | none => none
      else none

/-- Parse one or more comma-separated array elements up to and including the
closing bracket. -/
def parseElems : Nat → List Char → Option (JsonList × List Char)
  | 0, _ => none
  | fuel + 1, s =>
    match parseValue fuel s with
    | none => none
    | some (v, r) =>
      match skipWs r with
      | ',' :: r2 =>
        match parseElems fuel r2 with
        | some (tl, r3) => some (.cons v tl, r3)
        | none => none
      | ']' :: r2 => some (.cons v .nil, r2)
      | _ => none

/-- Parse one or more comma-separated object members up to and including the
closing brace. -/
def parseMembers : Nat → List Char → Option (JsonObj × List Char)
  | 0, _ => none
  | fuel + 1, s =>
    match skipWs s with
    | '"' :: rest =>
      match parseStringBody rest with
      | some (kcs, r) =>
        match skipWs r with
        | ':' :: r2 =>
          match parseValue fuel r2 with
          | none => none
          | some (v, r3) =>
            match skipWs r3 with
            | ',' :: r4 =>
              match parseMembers fuel r4 with
              | some (tl, r5) => some (.cons (String.mk kcs) v tl, r5)
              | none => none
            | '\x7d' :: r4 => some (.cons (String.mk kcs) v .nil, r4)
            | _ => none
        | _ => none
      | none => none
    | _ => none

end

/-- `JSON.parse`: parse a complete JSON document (whitespace allowed on
either side), rejecting trailing garbage.  `none` models the `SyntaxError`
thrown by the JavaScript builtin. -/
def JSONparse (s : String) : Option Json :=
  match parseValue (s.length + 1) s.data with
  | some (v, r) => if skipWs r = [] then some v else none
  | none => none

/-! ## Parser fuel measures

`pfuel v` bounds the parser fuel needed to read back `serializeV v`; the
mutual companions bound `parseElems` / `parseMembers` on the serialized
element lists. -/

mutual

/-- Fuel needed by `parseValue` on the serialization of `v`. -/
def pfuel : Json → Nat
  | .arr xs => 1 + efuel xs
  | .obj fs => 1 + mfuel fs
  | _ => 1

/-- Fuel needed by `parseElems` on the serialized elements. -/
def efuel : JsonList → Nat
  | .nil => 0
  | .cons v tl => 1 + max (pfuel v) (efuel tl)

/-- Fuel needed by `parseMembers` on the serialized members. -/
def mfuel : JsonObj → Nat
  | .nil => 0
  | .cons _ v tl => 1 + max (pfuel v) (mfuel tl)

end

/-- Fold a digit-character list onto an accumulator (decimal place value);
used to state the digit-printing/parsing round trip. -/
def digitsToNat (a : Nat) (ds : List Char) : Nat :=
  ds.foldl (fun x c => x * 10 + (c.toNat - 48)) a

/-! ## Internal conversation data model

The content-block union consumed by the service comes from the
`@bytebot/shared` package, which is not part of this repository's sources;
its shapes are modelled from the spec (§3): `ToolResult` content is a
sequence of `Text | Image` leaves and `UserAction` content is a sequence of
`ToolUse | Image` leaves. -/

/-- Conversation roles (the Prisma `Role` enum). -/
inductive Role where
  | USER : Role
  | ASSISTANT : Role
  deriving DecidableEq

/-- Modelled from the spec: a `ToolResult` content leaf (`Text | Image`),
per the data model of `@bytebot/shared` which is not under the sources. -/
inductive TRLeaf where
  | trText (text : String) : TRLeaf
  | trImage (media_type : String) (data : String) : TRLeaf
  deriving DecidableEq

/-- Modelled from the spec: a `UserAction` content leaf (`ToolUse | Image`),
per the data model of `@bytebot/shared` which is not under the sources. -/
inductive UALeaf where
  | uaToolUse (id : String) (name : String) (input : Json) : UALeaf
  | uaImage (media_type : String) (data : String) : UALeaf
  deriving DecidableEq

/-- The internal `MessageContentBlock` union. -/
inductive MCBlock where
  | text (text : String) : MCBlock
  | image (media_type : String) (data : String) : MCBlock
  | toolUse (id : String) (name : String) (input : Json) : MCBlock
  | toolResult (tool_use_id : String) (is_error : Bool)
      (content : List TRLeaf) : MCBlock
  | userAction (content : List UALeaf) : MCBlock
  deriving DecidableEq

/-- A conversation message: a role plus ordered content blocks. -/
structure Msg where
  role : Role
  content : List MCBlock
  deriving DecidableEq

/-! ## Wire data model -/

/-- One typed part of wire message content. -/
inductive WirePart where
  | text (text : String) : WirePart
  | image_url (url : String) : WirePart
  | function_call (name : String) (arguments : String) : WirePart
  | function_response (name : String) (content : String) : WirePart
  deriving DecidableEq

/-- Wire message content: bare string or part list. -/
inductive WireContent where
  | str (s : String) : WireContent
  | parts (ps : List WirePart) : WireContent
  deriving DecidableEq

/-- One outbound wire message. -/
structure WireMsg where
  role : String
  content : WireContent
  deriving DecidableEq

/-! ## Request formatter and tool-name resolver (`vllm.service.ts`) -/

/-- `isUserActionContentBlock` of `@bytebot/shared`: discriminates the
`UserAction` variant. -/
def isUserActionContentBlock : MCBlock → Bool
  | .userAction _ => true
  | _ => false

/-- The predicate used by `getToolName`: a `ToolUse` block whose `id` equals
the requested `tool_use_id`. -/
def blockMatchesToolUseId (tool_use_id : String) : MCBlock → Bool
  | .toolUse i _ _ => i == tool_use_id
  | _ => false

/-- `getToolName`: find the first message containing a `ToolUse` block with
the given id, then that block's `name`; `none` models `undefined`. -/
def getToolName (tool_use_id : String) (messages : List Msg) : Option String :=
  match messages.find? (fun m => m.content.any (blockMatchesToolUseId tool_use_id)) with
  | none => none
  | some toolMessage =>
    match toolMessage.content.find? (blockMatchesToolUseId tool_use_id) with
    | none => none
    | some b =>
      match b with
      | .toolUse _ name _ => some name
      | _ => none

/-- JavaScript `x || d` on an optional string: `undefined` and the empty
string are falsy. -/
def jsOrElse (o : Option String) (d : String) : String :=
  match o with
  | some s => if s = "" then d else s
  | none => d

/-- Modelled from the spec: the JSON object shape of a `ToolResult` content
leaf (the `@bytebot/shared` block shapes are not under the sources). -/
def trLeafToJson : TRLeaf → Json
  | .trText t => jobj [("type", .str "text"), ("text", .str t)]
  | .trImage mt d =>
    jobj [("type", .str "image"),
          ("source", jobj [("type", .str "base64"), ("media_type", .str mt),
                           ("data", .str d)])]

/-- Modelled from the spec: the JSON object shape of a `UserAction` content
leaf. -/
def uaLeafToJson : UALeaf → Json
  | .uaToolUse i n inp =>
    jobj [("type", .str "tool_use"), ("id", .str i), ("name", .str n),
          ("input", inp)]
  | .uaImage mt d =>
    jobj [("type", .str "image"),
          ("source", jobj [("type", .str "base64"), ("media_type", .str mt),
                           ("data", .str d)])]

/-- Modelled from the spec: the JSON object shape of a whole content block,
used by the formatter's defensive default branch. -/
def blockToJson : MCBlock → Json
  | .text t => jobj [("type", .str "text"), ("text", .str t)]
  | .image mt d =>
    jobj [("type", .str "image"),
          ("source", jobj [("type", .str "base64"), ("media_type", .str mt),
                           ("data", .str d)])]
  | .toolUse i n inp =>
    jobj [("type", .str "tool_use"), ("id", .str i), ("name", .str n),
          ("input", inp)]
  | .toolResult tid e content =>
    jobj [("type", .str "tool_result"), ("tool_use_id", .str tid),
          ("is_error", .bool e), ("content", jarr (content.map trLeafToJson))]
  | .userAction c =>
    jobj [("type", .str "user_action"),
          ("content", jarr (c.map uaLeafToJson))]

/-- The image data URI `data:<mediaType>;base64,<data>`. -/
def dataUri (media_type data : String) : String :=
  "data:" ++ media_type ++ ";base64," ++ data

/-- Per-leaf conversion inside the all-`UserAction` branch: a nested
`ToolUse` becomes a descriptive text part, a nested `Image` an image part. -/
def convertUALeaf : UALeaf → WirePart
  | .uaToolUse _ name input =>
    .text ("User performed action: " ++ name ++ "\n" ++
      Json.stringifyPretty input)
  | .uaImage mt d => .image_url (dataUri mt d)

/-- The nested leaves of a `UserAction` block (`block.content`); empty on
every other variant. -/
def uaContent : MCBlock → List UALeaf
  | .userAction c => c
  | _ => []

/-- Per-block conversion of the formatter's `switch` (the not-all-UserAction
branch).  `none` models the runtime error on a `ToolResult` with empty
content (`block.content[0]` is `undefined`). -/
def convertBlock (messages : List Msg) : MCBlock → Option (List WirePart)
  | .text t => some [.text t]
  | .toolUse _ name input => some [.function_call name (Json.stringify input)]
  | .image mt d => some [.image_url (dataUri mt d)]
  | .toolResult tool_use_id is_error content =>
    match content.head? with
    | none => none
    | some first =>
      match first with
      | .trImage mt d =>
        some [.function_response "screenshot" "screenshot successful",
              .image_url (dataUri mt d)]
      | .trText _ =>
        some [.function_response
          (jsOrElse (getToolName tool_use_id messages) "unknown_tool")
          (if is_error then Json.stringify (trLeafToJson first)
           else Json.stringify (trLeafToJson first))]
  | .userAction c =>
    some [.text (Json.stringify (blockToJson (.userAction c)))]

/-- The `parts` accumulated by the not-all-UserAction loop: per-block
conversions concatenated in order; a failing block aborts the whole
message (exception semantics). -/
def convertBlocksFlat (messages : List Msg) : List MCBlock → Option (List WirePart)
  | [] => some []
  | b :: bs =>
    match convertBlock messages b with
    | none => none
    | some ps =>
      match convertBlocksFlat messages bs with
      | none => none
      | some rest => some (ps ++ rest)

/-- The rendered part list of one message: the all-`UserAction` branch
flattens nested leaves, otherwise each block is converted in order. -/
def messageParts (messages : List Msg) (blocks : List MCBlock) :
    Option (List WirePart) :=
  if blocks.all isUserActionContentBlock then
    some ((blocks.flatMap uaContent).map convertUALeaf)
  else
    convertBlocksFlat messages blocks

/-- The content-shape collapsing rule: a single text part collapses to a
bare string, every other part list keeps the array form. -/
def collapse : List WirePart → WireContent
  | [WirePart.text t] => .str t
  | parts => .parts parts

/-- Wire role of an internal role: `USER` maps to `"user"`, anything else to
`"assistant"`. -/
def roleToWire (r : Role) : String :=
  if r = Role.USER then "user" else "assistant"

/-- Render one conversation message to a wire message. -/
def formatMessage (messages : List Msg) (m : Msg) : Option WireMsg :=
  match messageParts messages m.content with
  | none => none
  | some parts => some ⟨roleToWire m.role, collapse parts⟩

/-- Render every conversation message (the loop body of
`formatMessagesForVllm`). -/
def mapFormatMessages (messages : List Msg) : List Msg → Option (List WireMsg)
  | [] => some []
  | m :: ms =>
    match formatMessage messages m with
    | none => none
    | some wm =>
      match mapFormatMessages messages ms with
      | none => none
      | some wms => some (wm :: wms)

/-- `formatMessagesForVllm`: an optional system message (only for a
non-empty prompt) followed by the rendered conversation messages. -/
def formatMessagesForVllm (messages : List Msg) (systemPrompt : String) :
    Option (List WireMsg) :=
  match mapFormatMessages messages messages with
  | none => none
  | some wms =>
    some ((if systemPrompt = "" then []
           else [WireMsg.mk "system" (WireContent.str systemPrompt)]) ++ wms)

/-! ## Response parser (`formatVllmResponse`) -/

/-- The `function_call` payload of a response part. -/
structure RespFC where
  name : String
  arguments : String
  deriving DecidableEq

/-- One part of response message content (`type` is an open string so that
unknown wire shapes are representable). -/
structure RespPart where
  type : String
  text : Option String := none
  function_call : Option RespFC := none
  deriving DecidableEq

/-- Response message content: bare string or part list. -/
inductive RespContent where
  | str (s : String) : RespContent
  | parts (ps : List RespPart) : RespContent
  deriving DecidableEq

/-- The one hard failure of the response parser: a `function_call` part
whose `arguments` string is not valid JSON (the `SyntaxError` thrown by
`JSON.parse`). -/
inductive RespError where
  | malformedArguments : RespError
  deriving DecidableEq

/-- JavaScript truthiness of an optional string field: `undefined` and the
empty string are falsy. -/
def jsTruthyStr : Option String → Bool
  | some s => if s = "" then false else true
  | none => false

/-- The JSON object shape of a response part (`JSON.stringify` omits absent
fields). -/
def respPartToJson (p : RespPart) : Json :=
  jobj (("type", Json.str p.type) ::
    ((match p.text with
      | some t => [("text", Json.str t)]
      | none => []) ++
     (match p.function_call with
      | some fc => [("function_call",
          jobj [("name", Json.str fc.name),
                ("arguments", Json.str fc.arguments)])]
      | none => [])))

/-- The body of `formatVllmResponse`'s per-part `map`.  `ids` supplies fresh
identifiers (the `uuid()` calls) and `k` is the index of the next fresh
identifier; a converted `ToolUse` consumes one. -/
def convertRespPart (ids : Nat → String) (k : Nat) (p : RespPart) :
    Except RespError (MCBlock × Nat) :=
  if p.type = "text" ∧ jsTruthyStr p.text = true then
    .ok (.text (p.text.getD ""), k)
  else
    match p.function_call with
    | some fc =>
      if p.type = "function_call" then
        match JSONparse fc.arguments with
        | some v => .ok (.toolUse (ids k) fc.name v, k + 1)
        | none => .error .malformedArguments
      else .ok (.text (Json.stringify (respPartToJson p)), k)
    | none => .ok (.text (Json.stringify (respPartToJson p)), k)

/-- Convert a response part list in order, threading the fresh-identifier
counter; the first malformed `function_call` aborts (exception
semantics). -/
def convertRespParts (ids : Nat → String) (k : Nat) :
    List RespPart → Except RespError (List MCBlock)
  | [] => .ok []
  | p :: ps =>
    match convertRespPart ids k p with
    | .error e => .error e
    | .ok (b, k2) =>
      match convertRespParts ids k2 ps with
      | .error e => .error e
      | .ok bs => .ok (b :: bs)

/-- `formatVllmResponse`: a bare string becomes a single `Text` block, a
part list is converted element-wise. -/
def formatVllmResponse (ids : Nat → String) :
    RespContent → Except RespError (List MCBlock)
  | .str s => .ok [.text s]
  | .parts ps => convertRespParts ids 0 ps

/-! ## Round-trip support -/

/-- Reading an outbound wire part back as a response part (the wire shapes
coincide on `text` and `function_call`). -/
def wireToResp : WirePart → RespPart
  | .text t => ⟨"text", some t, none⟩
  | .image_url _ => ⟨"image_url", none, none⟩
  | .function_call n a => ⟨"function_call", none, some ⟨n, a⟩⟩
  | .function_response _ _ => ⟨"function_response", none, none⟩

/-- Structural equivalence of content blocks up to tool-use identifiers:
`Text` blocks compare their text, `ToolUse` blocks compare name and input
(identifiers are regenerated on parse). -/
def blockEquiv : MCBlock → MCBlock → Prop
  | .text t, .text t2 => t = t2
  | .toolUse _ n i, .toolUse _ n2 i2 => n = n2 ∧ i = i2
  | _, _ => False

/-- Is this block a `Text` or `ToolUse` block? -/
def isTextOrToolUse : MCBlock → Bool
  | .text _ => true
  | .toolUse _ _ _ => true
  | _ => false

/-- Does this block avoid the empty-text pitfall (`Text` blocks only)? -/
def hasNonemptyText : MCBlock → Bool
  | .text t => if t = "" then false else true
  | _ => true

/-! ## Lemmas: whitespace and digits -/

theorem skipWs_cons_not_ws {c : Char} (l : List Char) (h : isWsChar c = false) :
    skipWs (c :: l) = c :: l := by
  simp [skipWs, h]

theorem digitChar_isDigit {d : Nat} (h : d < 10) : (digitChar d).isDigit = true := by
  interval_cases d <;> decide

theorem digitChar_toNat {d : Nat} (h : d < 10) : (digitChar d).toNat = 48 + d := by
  interval_cases d <;> decide

theorem digitChar_not_ws {d : Nat} (h : d < 10) : isWsChar (digitChar d) = false := by
  interval_cases d <;> decide

theorem digitChar_ne {d : Nat} (h : d < 10) :
    digitChar d ≠ 'n' ∧ digitChar d ≠ 't' ∧ digitChar d ≠ 'f' ∧
    digitChar d ≠ '"' ∧ digitChar d ≠ '[' ∧ digitChar d ≠ '\x7b' ∧
    digitChar d ≠ '-' ∧ digitChar d ≠ ']' ∧ digitChar d ≠ '\x7d' := by
  interval_cases d <;> decide

theorem natToDigitsAux_zero (fuel : Nat) (acc : List Char) :
    natToDigitsAux fuel 0 acc = acc := by
  cases fuel <;> simp [natToDigitsAux]

theorem natToDigitsAux_append (fuel : Nat) :
    ∀ (n : Nat) (acc : List Char),
      natToDigitsAux fuel n acc = natToDigitsAux fuel n [] ++ acc := by
  induction fuel with
  | zero => intro n acc; simp [natToDigitsAux]
  | succ f ih =>
    intro n acc
    by_cases h : n = 0
    · simp [natToDigitsAux, h]
    · rw [natToDigitsAux, if_neg h, natToDigitsAux, if_neg h,
        ih (n / 10) (digitChar (n % 10) :: acc),
        ih (n / 10) (digitChar (n % 10) :: [])]
      simp

theorem natToDigitsAux_fuel_irrel :
    ∀ (n f f' : Nat), n ≤ f → n ≤ f' →
      natToDigitsAux f n [] = natToDigitsAux f' n [] := by
  intro n
  induction n using Nat.strong_induction_on with
  | _ n ih =>
    intro f f' hf hf'
    by_cases h : n = 0
    · subst h; rw [natToDigitsAux_zero, natToDigitsAux_zero]
    · have hn : 0 < n := Nat.pos_of_ne_zero h
      obtain ⟨a, rfl⟩ : ∃ a, f = a + 1 :=
        ⟨f - 1, by omega⟩
      obtain ⟨b, rfl⟩ : ∃ b, f' = b + 1 :=
        ⟨f' - 1, by omega⟩
      rw [natToDigitsAux, if_neg h, natToDigitsAux, if_neg h,
        natToDigitsAux_append a, natToDigitsAux_append b]
      have hdiv : n / 10 < n := Nat.div_lt_self hn (by omega)
      rw [ih (n / 10) hdiv a b (by omega) (by omega)]

theorem natToDigitsAux_step (f n : Nat) (hn : 0 < n) (hf : n ≤ f) :
    natToDigitsAux f n [] =
      natToDigitsAux f (n / 10) [] ++ [digitChar (n % 10)] := by
  obtain ⟨a, rfl⟩ : ∃ a, f = a + 1 := ⟨f - 1, by omega⟩
  rw [natToDigitsAux, if_neg (by omega), natToDigitsAux_append]
  have hdiv : n / 10 < n := Nat.div_lt_self hn (by omega)
  rw [natToDigitsAux_fuel_irrel (n / 10) a (a + 1) (by omega) (by omega)]

theorem natToDigitsAux_all_digit (fuel : Nat) :
    ∀ (n : Nat) (acc : List Char), (∀ c ∈ acc, c.isDigit = true) →
      ∀ c ∈ natToDigitsAux fuel n acc, c.isDigit = true := by
  induction fuel with
  | zero => intro n acc hacc; simpa [natToDigitsAux] using hacc
  | succ f ih =>
    intro n acc hacc
    by_cases h : n = 0
    · simpa [natToDigitsAux, h] using hacc
    · rw [natToDigitsAux, if_neg h]
      refine ih (n / 10) _ ?_
      intro c hc
      rcases List.mem_cons.mp hc with hc | hc
      · subst hc; exact digitChar_isDigit (Nat.mod_lt _ (by omega))
      · exact hacc c hc

theorem natToDigits_all_digit (n : Nat) :
    ∀ c ∈ natToDigits n, c.isDigit = true := by
  unfold natToDigits
  by_cases h : n = 0
  · simp [h]
  · rw [if_neg h]
    exact natToDigitsAux_all_digit n n [] (by simp)

theorem natToDigits_head (n : Nat) :
    ∃ d tl, d < 10 ∧ natToDigits n = digitChar d :: tl := by
  unfold natToDigits
  by_cases h : n = 0
  · exact ⟨0, [], by omega, by simp [h]; decide⟩
  · rw [if_neg h]
    have hgen : ∀ (m : Nat), 0 < m → ∀ f, m ≤ f →
        ∃ d tl, d < 10 ∧ natToDigitsAux f m [] = digitChar d :: tl := by
      intro m
      induction m using Nat.strong_induction_on with
      | _ m ih =>
        intro hm f hf
        rw [natToDigitsAux_step f m hm hf]
        by_cases hq : m / 10 = 0
        · rw [hq, natToDigitsAux_zero]
          exact ⟨m % 10, [], Nat.mod_lt _ (by omega), rfl⟩
        · have hdiv : m / 10 < m := Nat.div_lt_self hm (by omega)
          obtain ⟨d, tl, hd, heq⟩ :=
            ih (m / 10) hdiv (Nat.pos_of_ne_zero hq) f (by omega)
          exact ⟨d, tl ++ [digitChar (m % 10)], hd, by rw [heq]; simp⟩
    exact hgen n (Nat.pos_of_ne_zero h) n le_rfl

theorem digitsToNat_append_singleton (a : Nat) (ds : List Char) (c : Char) :
    digitsToNat a (ds ++ [c]) = digitsToNat a ds * 10 + (c.toNat - 48) := by
  simp [digitsToNat, List.foldl_append]

theorem digitsToNat_natToDigitsAux :
    ∀ (n : Nat), 0 < n → ∀ f, n ≤ f →
      digitsToNat 0 (natToDigitsAux f n []) = n := by
  intro n
  induction n using Nat.strong_induction_on with
  | _ n ih =>
    intro hn f hf
    rw [natToDigitsAux_step f n hn hf, digitsToNat_append_singleton,
      digitChar_toNat (Nat.mod_lt _ (by omega))]
    by_cases hq : n / 10 = 0
    · rw [hq, natToDigitsAux_zero]
      simp [digitsToNat]
      omega
    · have hdiv : n / 10 < n := Nat.div_lt_self hn (by omega)
      rw [ih (n / 10) hdiv (Nat.pos_of_ne_zero hq) f (by omega)]
      omega

theorem digitsToNat_natToDigits (n : Nat) :
    digitsToNat 0 (natToDigits n) = n := by
  unfold natToDigits
  by_cases h : n = 0
  · simp [h]; decide
  · rw [if_neg h]
    exact digitsToNat_natToDigitsAux n (Nat.pos_of_ne_zero h) n le_rfl

theorem parseDigitsAux_spec :
    ∀ (ds : List Char) (acc : Nat) (rest : List Char),
      (∀ c ∈ ds, c.isDigit = true) → digitStart rest = false →
      parseDigitsAux acc (ds ++ rest) = (digitsToNat acc ds, rest) := by
  intro ds
  induction ds with
  | nil =>
    intro acc rest _ hrest
    cases rest with
    | nil => simp [parseDigitsAux, digitsToNat]
    | cons r rs =>
      have : r.isDigit = false := by simpa [digitStart] using hrest
      simp [parseDigitsAux, this, digitsToNat]
  | cons d ds ih =>
    intro acc rest hds hrest
    have hd : d.isDigit = true := hds d (by simp)
    rw [List.cons_append, parseDigitsAux, if_pos hd,
      ih _ rest (fun c hc => hds c (by simp [hc])) hrest]
    rfl

theorem parseDigits_natToDigits (n : Nat) (rest : List Char)
    (hrest : digitStart rest = false) :
    parseDigits (natToDigits n ++ rest) = some (n, rest) := by
  obtain ⟨d, tl, hd, heq⟩ := natToDigits_head n
  have hall := natToDigits_all_digit n
  rw [heq] at hall ⊢
  rw [List.cons_append, parseDigits, if_pos (hall _ (by simp))]
  rw [parseDigitsAux_spec tl _ rest (fun c hc => hall c (by simp [hc])) hrest]
  have hval : digitsToNat ((digitChar d).toNat - 48) tl = n := by
    have := digitsToNat_natToDigits n
    rw [heq] at this
    simpa [digitsToNat] using this
  rw [hval]

/-! ## Lemmas: strings and serialized shapes -/

theorem string_mk_data : ∀ s : String, String.mk s.data = s
  | ⟨_⟩ => rfl

theorem escapeChars_cons (c : Char) (cs : List Char) :
    escapeChars (c :: cs) = escChar c ++ escapeChars cs := by
  simp [escapeChars]

theorem parseStringBody_escape :
    ∀ (cs rest : List Char),
      parseStringBody (escapeChars cs ++ '"' :: rest) = some (cs, rest) := by
  intro cs
  induction cs with
  | nil =>
    intro rest
    show parseStringBody (escapeChars [] ++ '"' :: rest) = some ([], rest)
    rw [show escapeChars [] = [] from rfl, List.nil_append,
      parseStringBody.eq_def]
    simp
  | cons c cs ih =>
    intro rest
    rw [escapeChars_cons]
    by_cases h1 : c = '"'
    · subst h1
      rw [show escChar '"' = ['\\', '"'] from rfl, List.cons_append,
        List.singleton_append, parseStringBody.eq_def]
      simp [unescapeChar, ih]
    · by_cases h2 : c = '\\'
      · subst h2
        rw [show escChar '\\' = ['\\', '\\'] from by decide, List.cons_append,
          List.singleton_append, parseStringBody.eq_def]
        simp [unescapeChar, ih]
      · by_cases h3 : c = '\n'
        · subst h3
          rw [show escChar '\n' = ['\\', 'n'] from by decide, List.cons_append,
            List.singleton_append, parseStringBody.eq_def]
          simp [unescapeChar, ih]
        · by_cases h4 : c = '\t'
          · subst h4
            rw [show escChar '\t' = ['\\', 't'] from by decide,
              List.cons_append, List.singleton_append,
              parseStringBody.eq_def]
            simp [unescapeChar, ih]
          · by_cases h5 : c = '\r'
            · subst h5
              rw [show escChar '\r' = ['\\', 'r'] from by decide,
                List.cons_append, List.singleton_append,
                parseStringBody.eq_def]
              simp [unescapeChar, ih]
            · rw [show escChar c = [c] from by
                rw [escChar, if_neg h1, if_neg h2, if_neg h3, if_neg h4,
                  if_neg h5],
                List.singleton_append, parseStringBody.eq_def]
              simp [if_neg h1, if_neg h2, ih]

theorem splitHead_ne {want c : Char} (l : List Char) (h : c ≠ want) :
    splitHead want (c :: l) = none := by
  simp [splitHead, h]

theorem serializeV_num_ofNat (m : Nat) :
    serializeV (.num (Int.ofNat m)) = natToDigits m := rfl

theorem serializeV_head (v : Json) :
    ∃ c t, serializeV v = c :: t ∧ isWsChar c = false ∧ c ≠ ']' ∧ c ≠ '\x7d' := by
  cases v with
  | num n =>
    cases n with
    | ofNat m =>
      obtain ⟨d, tl, hd, heq⟩ := natToDigits_head m
      exact ⟨digitChar d, tl, by rw [serializeV_num_ofNat, heq],
        digitChar_not_ws hd, (digitChar_ne hd).2.2.2.2.2.2.2.1,
        (digitChar_ne hd).2.2.2.2.2.2.2.2⟩
    | negSucc m => refine ⟨'-', _, rfl, ?_, ?_, ?_⟩ <;> decide
  | null => refine ⟨'n', _, rfl, ?_, ?_, ?_⟩ <;> decide
  | bool b =>
    cases b with
    | false => refine ⟨'f', _, rfl, ?_, ?_, ?_⟩ <;> decide
    | true => refine ⟨'t', _, rfl, ?_, ?_, ?_⟩ <;> decide
  | str s => refine ⟨'"', _, rfl, ?_, ?_, ?_⟩ <;> decide
  | arr xs => refine ⟨'[', _, rfl, ?_, ?_, ?_⟩ <;> decide
  | obj fs => refine ⟨'\x7b', _, rfl, ?_, ?_, ?_⟩ <;> decide

theorem skipWs_serializeV (v : Json) (rest : List Char) :
    skipWs (serializeV v ++ rest) = serializeV v ++ rest := by
  obtain ⟨c, t, heq, hws, _, _⟩ := serializeV_head v
  rw [heq, List.cons_append, skipWs_cons_not_ws _ hws]

theorem serializeArr_head (xs : JsonList) (h : xs ≠ .nil) :
    ∃ c t, serializeArr xs = c :: t ∧ isWsChar c = false ∧ c ≠ ']' ∧
      c ≠ '\x7d' := by
  cases xs with
  | nil => exact absurd rfl h
  | cons v tl =>
    obtain ⟨c, t, heq, hws, hbr, hbr2⟩ := serializeV_head v
    cases tl with
    | nil =>
      exact ⟨c, t, by rw [show serializeArr (.cons v .nil) = serializeV v
        from rfl, heq], hws, hbr, hbr2⟩
    | cons w tl2 =>
      exact ⟨c, t ++ ',' :: serializeArr (.cons w tl2),
        by rw [show serializeArr (.cons v (.cons w tl2)) =
            serializeV v ++ ',' :: serializeArr (.cons w tl2) from rfl,
          heq, List.cons_append], hws, hbr, hbr2⟩

theorem serializeObjFields_head (fs : JsonObj) (h : fs ≠ .nil) :
    ∃ t, serializeObjFields fs = '"' :: t := by
  cases fs with
  | nil => exact absurd rfl h
  | cons k v tl =>
    cases tl with
    | nil => exact ⟨_, rfl⟩
    | cons k2 w tl2 => exact ⟨_, rfl⟩

theorem pfuel_pos (v : Json) : 1 ≤ pfuel v := by
  cases v with
  | arr xs => have h : pfuel (.arr xs) = 1 + efuel xs := rfl; omega
  | obj fs => have h : pfuel (.obj fs) = 1 + mfuel fs := rfl; omega
  | null => decide
  | bool b => cases b <;> decide
  | num n => exact le_of_eq rfl
  | str s => exact le_of_eq rfl

theorem efuel_pos (xs : JsonList) (h : xs ≠ .nil) : 1 ≤ efuel xs := by
  cases xs with
  | nil => exact absurd rfl h
  | cons v tl => simp [efuel]

theorem mfuel_pos (fs : JsonObj) (h : fs ≠ .nil) : 1 ≤ mfuel fs := by
  cases fs with
  | nil => exact absurd rfl h
  | cons k v tl => simp [mfuel]

/-! ## Lemmas: one-step parser unfoldings -/

theorem parseValue_null (f : Nat) (l : List Char) :
    parseValue (f + 1) ('n' :: 'u' :: 'l' :: 'l' :: l) = some (.null, l) := rfl

theorem parseValue_true (f : Nat) (l : List Char) :
    parseValue (f + 1) ('t' :: 'r' :: 'u' :: 'e' :: l) =
      some (.bool true, l) := rfl

theorem parseValue_false (f : Nat) (l : List Char) :
    parseValue (f + 1) ('f' :: 'a' :: 'l' :: 's' :: 'e' :: l) =
      some (.bool false, l) := rfl

theorem parseValue_quote (f : Nat) (l : List Char) :
    parseValue (f + 1) ('"' :: l) =
      match parseStringBody l with
      | some (cs, r) => some (.str (String.mk cs), r)
      | none => none := rfl

theorem parseValue_lbrack (f : Nat) (l : List Char) :
    parseValue (f + 1) ('[' :: l) =
      match splitHead ']' (skipWs l) with
      | some r2 => some (.arr .nil, r2)
      | none =>
        match parseElems f l with
        | some (xs, r) => some (.arr xs, r)
        | none => none := rfl

theorem parseValue_lbrace (f : Nat) (l : List Char) :
    parseValue (f + 1) ('\x7b' :: l) =
      match splitHead '\x7d' (skipWs l) with
      | some r2 => some (.obj .nil, r2)
      | none =>
        match parseMembers f l with
        | some (fs, r) => some (.obj fs, r)
        | none => none := rfl

theorem parseValue_dash (f : Nat) (l : List Char) :
    parseValue (f + 1) ('-' :: l) =
      match parseDigits l with
      | some (n, r) => some (.num (-(n : Int)), r)
      | none => none := rfl

theorem parseValue_digit (f : Nat) (c : Char) (l : List Char)
    (hdig : c.isDigit = true) (h1 : c ≠ 'n') (h2 : c ≠ 't') (h3 : c ≠ 'f')
    (h4 : c ≠ '"') (h5 : c ≠ '[') (h6 : c ≠ '\x7b') (h7 : c ≠ '-')
    (hws : isWsChar c = false) :
    parseValue (f + 1) (c :: l) =
      match parseDigits (c :: l) with
      | some (n, r) => some (.num (n : Int), r)
      | none => none := by
  rw [parseValue.eq_def]
  simp only [skipWs_cons_not_ws _ hws]
  simp only [if_neg h1, if_neg h2, if_neg h3, if_neg h4, if_neg h5, if_neg h6,
    if_neg h7, hdig, if_pos]

theorem parseElems_succ (f : Nat) (l : List Char) :
    parseElems (f + 1) l =
      match parseValue f l with
      | none => none
      | some (v, r) =>
        match skipWs r with
        | ',' :: r2 =>
          match parseElems f r2 with
          | some (tl, r3) => some (.cons v tl, r3)
          | none => none
        | ']' :: r2 => some (.cons v .nil, r2)
        | _ => none := rfl

theorem parseMembers_quote (f : Nat) (l : List Char) :
    parseMembers (f + 1) ('"' :: l) =
      match parseStringBody l with
      | some (kcs, r) =>
        match skipWs r with
        | ':' :: r2 =>
          match parseValue f r2 with
          | none => none
          | some (v, r3) =>
            match skipWs r3 with
            | ',' :: r4 =>
              match parseMembers f r4 with
              | some (tl, r5) => some (.cons (String.mk kcs) v tl, r5)
              | none => none
            | '\x7d' :: r4 => some (.cons (String.mk kcs) v .nil, r4)
            | _ => none
        | _ => none
      | none => none := rfl

/-! ## Lemmas: composed parser steps -/

theorem parseElems_value_rbrack (f : Nat) (S r2 : List Char) (v : Json)
    (hpv : parseValue f S = some (v, ']' :: r2)) :
    parseElems (f + 1) S = some (.cons v .nil, r2) := by
  rw [parseElems_succ, hpv]
  rfl

theorem parseElems_value_comma (f : Nat) (S r2 : List Char) (v : Json)
    (hpv : parseValue f S = some (v, ',' :: r2)) :
    parseElems (f + 1) S =
      match parseElems f r2 with
      | some (tl, r3) => some (.cons v tl, r3)
      | none => none := by
  rw [parseElems_succ, hpv]
  rfl

theorem parseMembers_key (f : Nat) (kcs Z : List Char) :
    parseMembers (f + 1) ('"' :: (escapeChars kcs ++ '"' :: ':' :: Z)) =
      match parseValue f Z with
      | none => none
      | some (v, r3) =>
        match skipWs r3 with
        | ',' :: r4 =>
          match parseMembers f r4 with
          | some (tl, r5) => some (.cons (String.mk kcs) v tl, r5)
          | none => none
        | '\x7d' :: r4 => some (.cons (String.mk kcs) v .nil, r4)
        | _ => none := by
  rw [parseMembers_quote, parseStringBody_escape kcs (':' :: Z)]
  rfl

theorem parseMembers_key_value_rbrace (f : Nat) (kcs Z r4 : List Char)
    (v : Json) (hpv : parseValue f Z = some (v, '\x7d' :: r4)) :
    parseMembers (f + 1) ('"' :: (escapeChars kcs ++ '"' :: ':' :: Z)) =
      some (.cons (String.mk kcs) v .nil, r4) := by
  rw [parseMembers_key, hpv]
  rfl

theorem parseMembers_key_value_comma (f : Nat) (kcs Z r4 : List Char)
    (v : Json) (hpv : parseValue f Z = some (v, ',' :: r4)) :
    parseMembers (f + 1) ('"' :: (escapeChars kcs ++ '"' :: ':' :: Z)) =
      match parseMembers f r4 with
      | some (tl, r5) => some (.cons (String.mk kcs) v tl, r5)
      | none => none := by
  rw [parseMembers_key, hpv]
  rfl

/-! ## The parse/serialize round trip -/

theorem parse_serialize_main :
    ∀ fuel : Nat,
      (∀ (v : Json) (rest : List Char), pfuel v ≤ fuel →
        digitStart rest = false →
        parseValue fuel (serializeV v ++ rest) = some (v, rest)) ∧
      (∀ (xs : JsonList) (rest : List Char), xs ≠ .nil → efuel xs ≤ fuel →
        parseElems fuel (serializeArr xs ++ ']' :: rest) = some (xs, rest)) ∧
      (∀ (fs : JsonObj) (rest : List Char), fs ≠ .nil → mfuel fs ≤ fuel →
        parseMembers fuel (serializeObjFields fs ++ '\x7d' :: rest) =
          some (fs, rest)) := by
  intro fuel
  induction fuel with
  | zero =>
    refine ⟨?_, ?_, ?_⟩
    · intro v rest hf _
      exact absurd hf (by have := pfuel_pos v; omega)
    · intro xs rest hne hf
      exact absurd hf (by have := efuel_pos xs hne; omega)
    · intro fs rest hne hf
      exact absurd hf (by have := mfuel_pos fs hne; omega)
  | succ f ih =>
    obtain ⟨ihV, ihE, ihM⟩ := ih
    refine ⟨?_, ?_, ?_⟩
    · intro v rest hf hrest
      cases v with
      | null => exact parseValue_null f rest
      | bool b =>
        cases b with
        | true => exact parseValue_true f rest
        | false => exact parseValue_false f rest
      | num n =>
        cases n with
        | ofNat m =>
          obtain ⟨d, tl, hd, heq⟩ := natToDigits_head m
          obtain ⟨h1, h2, h3, h4, h5, h6, h7, _, _⟩ := digitChar_ne hd
          have hser : serializeV (.num (Int.ofNat m)) ++ rest =
              digitChar d :: (tl ++ rest) := by
            rw [serializeV_num_ofNat, heq, List.cons_append]
          rw [hser, parseValue_digit f _ _ (digitChar_isDigit hd) h1 h2 h3 h4
            h5 h6 h7 (digitChar_not_ws hd)]
          rw [show digitChar d :: (tl ++ rest) = natToDigits m ++ rest from by
            rw [heq, List.cons_append]]
          rw [parseDigits_natToDigits m rest hrest]
          rfl
        | negSucc m =>
          have hser : serializeV (.num (Int.negSucc m)) ++ rest =
              '-' :: (natToDigits (m + 1) ++ rest) := by
            rw [show serializeV (.num (Int.negSucc m)) =
              '-' :: natToDigits (m + 1) from rfl, List.cons_append]
          rw [hser, parseValue_dash, parseDigits_natToDigits (m + 1) rest hrest]
          rfl
      | str s =>
        have hser : serializeV (.str s) ++ rest =
            '"' :: (escapeChars s.data ++ '"' :: rest) := by
          rw [show serializeV (.str s) =
            '"' :: (escapeChars s.data ++ ['"']) from rfl]
          simp
        rw [hser, parseValue_quote, parseStringBody_escape s.data rest]
      | arr xs =>
        cases xs with
        | nil => exact parseValue_lbrack f (']' :: rest)
        | cons w tl =>
          have hne : JsonList.cons w tl ≠ .nil := by simp
          obtain ⟨c, t, hsa, hws, hbr, _⟩ := serializeArr_head (.cons w tl) hne
          have hser : serializeV (.arr (.cons w tl)) ++ rest =
              '[' :: (serializeArr (.cons w tl) ++ ']' :: rest) := by
            rw [show serializeV (.arr (.cons w tl)) =
              '[' :: (serializeArr (.cons w tl) ++ [']']) from rfl]
            simp
          rw [hser, parseValue_lbrack]
          have hskip : skipWs (serializeArr (.cons w tl) ++ ']' :: rest) =
              serializeArr (.cons w tl) ++ ']' :: rest := by
            rw [hsa, List.cons_append, skipWs_cons_not_ws _ hws,
              ← List.cons_append, ← hsa]
          rw [hskip]
          have hsplit : splitHead ']' (serializeArr (.cons w tl) ++
              ']' :: rest) = none := by
            rw [hsa, List.cons_append]
            exact splitHead_ne _ hbr
          rw [hsplit]
          have hfe : efuel (.cons w tl) ≤ f := by
            have h0 : pfuel (.arr (.cons w tl)) = 1 + efuel (.cons w tl) := rfl
            omega
          rw [ihE (.cons w tl) rest hne hfe]
      | obj fs =>
        cases fs with
        | nil => exact parseValue_lbrace f ('\x7d' :: rest)
        | cons k w tl =>
          have hne : JsonObj.cons k w tl ≠ .nil := by simp
          obtain ⟨t, hsf⟩ := serializeObjFields_head (.cons k w tl) hne
          have hser : serializeV (.obj (.cons k w tl)) ++ rest =
              '\x7b' :: (serializeObjFields (.cons k w tl) ++
                '\x7d' :: rest) := by
            rw [show serializeV (.obj (.cons k w tl)) =
              '\x7b' :: (serializeObjFields (.cons k w tl) ++ ['\x7d'])
              from rfl]
            simp
          rw [hser, parseValue_lbrace]
          have hskip : skipWs (serializeObjFields (.cons k w tl) ++
              '\x7d' :: rest) =
              serializeObjFields (.cons k w tl) ++ '\x7d' :: rest := by
            rw [hsf, List.cons_append, skipWs_cons_not_ws _ (by decide),
              ← List.cons_append, ← hsf]
          rw [hskip]
          have hsplit : splitHead '\x7d' (serializeObjFields (.cons k w tl) ++
              '\x7d' :: rest) = none := by
            rw [hsf, List.cons_append]
            exact splitHead_ne _ (by decide)
          rw [hsplit]
          have hfm : mfuel (.cons k w tl) ≤ f := by
            have h0 : pfuel (.obj (.cons k w tl)) = 1 + mfuel (.cons k w tl) :=
              rfl
            omega
          rw [ihM (.cons k w tl) rest hne hfm]
    · intro xs rest hne hfe
      cases xs with
      | nil => exact absurd rfl hne
      | cons v tl =>
        have h0 : efuel (.cons v tl) = 1 + max (pfuel v) (efuel tl) := rfl
        have h1 : pfuel v ≤ max (pfuel v) (efuel tl) := Nat.le_max_left _ _
        have h2 : efuel tl ≤ max (pfuel v) (efuel tl) := Nat.le_max_right _ _
        have hpv : pfuel v ≤ f := by omega
        cases tl with
        | nil =>
          have hser : serializeArr (.cons v .nil) ++ ']' :: rest =
              serializeV v ++ ']' :: rest := by
            rw [show serializeArr (.cons v .nil) = serializeV v from rfl]
          rw [hser]
          exact parseElems_value_rbrack f _ rest v (ihV v (']' :: rest) hpv rfl)
        | cons w tl2 =>
          have hser : serializeArr (.cons v (.cons w tl2)) ++ ']' :: rest =
              serializeV v ++
                (',' :: (serializeArr (.cons w tl2) ++ ']' :: rest)) := by
            rw [show serializeArr (.cons v (.cons w tl2)) =
              serializeV v ++ ',' :: serializeArr (.cons w tl2) from rfl]
            simp
          rw [hser, parseElems_value_comma f _ _ v (ihV v _ hpv rfl),
            ihE (.cons w tl2) rest (by simp) (by omega)]
    · intro fs rest hne hfm
      cases fs with
      | nil => exact absurd rfl hne
      | cons k v tl =>
        have h0 : mfuel (.cons k v tl) = 1 + max (pfuel v) (mfuel tl) := rfl
        have h1 : pfuel v ≤ max (pfuel v) (mfuel tl) := Nat.le_max_left _ _
        have h2 : mfuel tl ≤ max (pfuel v) (mfuel tl) := Nat.le_max_right _ _
        have hpv : pfuel v ≤ f := by omega
        cases tl with
        | nil =>
          have hser : serializeObjFields (.cons k v .nil) ++ '\x7d' :: rest =
              '"' :: (escapeChars k.data ++ '"' :: ':' ::
                (serializeV v ++ '\x7d' :: rest)) := by
            rw [show serializeObjFields (.cons k v .nil) =
              '"' :: (escapeChars k.data ++ '"' :: ':' :: serializeV v)
              from rfl]
            simp
          rw [hser]
          exact parseMembers_key_value_rbrace f k.data _ rest v
            (ihV v ('\x7d' :: rest) hpv rfl)
        | cons k2 w tl2 =>
          have hser : serializeObjFields (.cons k v (.cons k2 w tl2)) ++
              '\x7d' :: rest =
              '"' :: (escapeChars k.data ++ '"' :: ':' ::
                (serializeV v ++ (',' ::
                  (serializeObjFields (.cons k2 w tl2) ++
                    '\x7d' :: rest)))) := by
            rw [show serializeObjFields (.cons k v (.cons k2 w tl2)) =
              ('"' :: (escapeChars k.data ++ '"' :: ':' :: serializeV v)) ++
                ',' :: serializeObjFields (.cons k2 w tl2) from rfl]
            simp
          rw [hser, parseMembers_key_value_comma f k.data _ _ v
            (ihV v _ hpv rfl), ihM (.cons k2 w tl2) rest (by simp) (by omega)]

mutual

theorem pfuel_le_length (v : Json) : pfuel v ≤ (serializeV v).length + 1 := by
  cases v with
  | null => decide
  | bool b => cases b <;> decide
  | num n =>
    have h1 : pfuel (.num n) = 1 := rfl
    omega
  | str s =>
    have h1 : pfuel (.str s) = 1 := rfl
    omega
  | arr xs =>
    have h1 : pfuel (.arr xs) = 1 + efuel xs := rfl
    have h2 : (serializeV (.arr xs)).length = (serializeArr xs).length + 2 := by
      rw [show serializeV (.arr xs) = '[' :: (serializeArr xs ++ [']'])
        from rfl]
      simp
    have h3 := efuel_le_length xs
    omega
  | obj fs =>
    have h1 : pfuel (.obj fs) = 1 + mfuel fs := rfl
    have h2 : (serializeV (.obj fs)).length =
        (serializeObjFields fs).length + 2 := by
      rw [show serializeV (.obj fs) =
        '\x7b' :: (serializeObjFields fs ++ ['\x7d']) from rfl]
      simp
    have h3 := mfuel_le_length fs
    omega

theorem efuel_le_length (xs : JsonList) :
    efuel xs ≤ (serializeArr xs).length + 2 := by
  cases xs with
  | nil => decide
  | cons v tl =>
    have h1 : efuel (.cons v tl) = 1 + max (pfuel v) (efuel tl) := rfl
    have h2 := pfuel_le_length v
    have h3 := efuel_le_length tl
    cases tl with
    | nil =>
      have h4 : serializeArr (.cons v .nil) = serializeV v := rfl
      have h5 : efuel (.nil : JsonList) = 0 := rfl
      rw [h4] at *
      omega
    | cons w tl2 =>
      have h4 : (serializeArr (.cons v (.cons w tl2))).length =
          (serializeV v).length + 1 + (serializeArr (.cons w tl2)).length := by
        rw [show serializeArr (.cons v (.cons w tl2)) =
          serializeV v ++ ',' :: serializeArr (.cons w tl2) from rfl]
        simp
        omega
      omega

theorem mfuel_le_length (fs : JsonObj) :
    mfuel fs ≤ (serializeObjFields fs).length + 2 := by
  cases fs with
  | nil => decide
  | cons k v tl =>
    have h1 : mfuel (.cons k v tl) = 1 + max (pfuel v) (mfuel tl) := rfl
    have h2 := pfuel_le_length v
    have h3 := mfuel_le_length tl
    cases tl with
    | nil =>
      have h4 : (serializeObjFields (.cons k v .nil)).length =
          (escapeChars k.data).length + 3 + (serializeV v).length := by
        rw [show serializeObjFields (.cons k v .nil) =
          '"' :: (escapeChars k.data ++ '"' :: ':' :: serializeV v) from rfl]
        simp
        omega
      have h5 : mfuel (.nil : JsonObj) = 0 := rfl
      omega
    | cons k2 w tl2 =>
      have h4 : (serializeObjFields (.cons k v (.cons k2 w tl2))).length =
          (escapeChars k.data).length + 4 + (serializeV v).length +
            (serializeObjFields (.cons k2 w tl2)).length := by
        rw [show serializeObjFields (.cons k v (.cons k2 w tl2)) =
          ('"' :: (escapeChars k.data ++ '"' :: ':' :: serializeV v)) ++
            ',' :: serializeObjFields (.cons k2 w tl2) from rfl]
        simp
        omega
      omega

end

/-- The JSON round trip of the modelled builtins: parsing a serialized value
recovers the value. -/
theorem json_parse_stringify (v : Json) :
    JSONparse (Json.stringify v) = some v := by
  have h2 : (Json.stringify v).length = (serializeV v).length := rfl
  have hfuel : pfuel v ≤ (Json.stringify v).length + 1 := by
    have h1 := pfuel_le_length v
    omega
  have hmain := (parse_serialize_main ((Json.stringify v).length + 1)).1 v []
    hfuel rfl
  rw [List.append_nil] at hmain
  unfold JSONparse
  rw [show (Json.stringify v).data = serializeV v from rfl, hmain]
  rfl

/-! ## Formatter lemmas and claim theorems -/

/-- C3: rendering a `ToolResult` whose first content element is an `Image`
emits exactly two consecutive parts, in order: a `function_response` with the
fixed sentinel name `"screenshot"` and fixed content
`"screenshot successful"`, then an `image_url` part whose URL is the data URI
built from the image's media type and base64 data. -/
theorem claim_C3_toolresult_image (messages : List Msg) (tool_use_id : String)
    (is_error : Bool) (mt d : String) (rest : List TRLeaf) :
    convertBlock messages
      (.toolResult tool_use_id is_error (.trImage mt d :: rest)) =
      some [.function_response "screenshot" "screenshot successful",
            .image_url (dataUri mt d)] := by
  cases is_error <;> rfl

/-- C9: for a `ToolResult` whose first content element is not an `Image`
(a `Text` leaf in the data model), the emitted `function_response` content is
the JSON serialization of that first element, and the `is_error` branches
produce identical wire output (the right-hand side does not depend on the
flag, and the `true`/`false` renderings are equal). -/
theorem claim_C9_toolresult_error_flag (messages : List Msg)
    (tool_use_id : String) (is_error : Bool) (t : String)
    (rest : List TRLeaf) :
    convertBlock messages
      (.toolResult tool_use_id is_error (.trText t :: rest)) =
      some [.function_response
        (jsOrElse (getToolName tool_use_id messages) "unknown_tool")
        (Json.stringify (trLeafToJson (.trText t)))] ∧
    convertBlock messages
      (.toolResult tool_use_id true (.trText t :: rest)) =
      convertBlock messages
        (.toolResult tool_use_id false (.trText t :: rest)) := by
  refine ⟨?_, rfl⟩
  cases is_error <;> rfl

/-- C10: a conversation message with an empty content-block list renders
without error to a wire message with the usual role mapping and the empty
array as content (the all-`UserAction` test is vacuously true, zero parts
are produced, and the collapsing rule selects the array form). -/
theorem claim_C10_empty_message (messages : List Msg) (r : Role) :
    formatMessage messages (Msg.mk r []) =
      some (WireMsg.mk (roleToWire r) (WireContent.parts [])) := rfl

/-- C5: the wire content collapses to the bare string of the single part
exactly when the rendered part list is one text part (equivalently: length
one with a text head); every other length or composition keeps the array
form, and `formatMessage` applies exactly this rule to the rendered parts
of a message. -/
theorem claim_C5_collapse (parts : List WirePart) :
    ((∃ t : String, parts = [WirePart.text t]) ↔
      parts.length = 1 ∧ ∃ t, parts.head? = some (WirePart.text t)) ∧
    (∀ t : String, parts = [WirePart.text t] →
      collapse parts = WireContent.str t) ∧
    ((¬ ∃ t : String, parts = [WirePart.text t]) →
      collapse parts = WireContent.parts parts) ∧
    (∀ (messages : List Msg) (m : Msg),
      messageParts messages m.content = some parts →
      formatMessage messages m =
        some (WireMsg.mk (roleToWire m.role) (collapse parts))) := by
  have hfmt : ∀ (messages : List Msg) (m : Msg),
      messageParts messages m.content = some parts →
      formatMessage messages m =
        some (WireMsg.mk (roleToWire m.role) (collapse parts)) := by
    intro messages m hmp
    unfold formatMessage
    rw [hmp]
  rcases parts with _ | ⟨p, ps⟩
  · exact ⟨by simp, by simp, fun _ => rfl, hfmt⟩
  · rcases ps with _ | ⟨q, qs⟩
    · rcases p with t | u | ⟨n, a⟩ | ⟨n, c⟩
      · refine ⟨?_, ?_, ?_, hfmt⟩
        · constructor
          · rintro ⟨t2, ht⟩
            exact ⟨rfl, t, rfl⟩
          · rintro ⟨hlen, t2, hhead⟩
            exact ⟨t, rfl⟩
        · intro t2 ht
          simp only [List.cons.injEq, WirePart.text.injEq, and_true] at ht
          rw [ht]
          rfl
        · intro hne
          exact absurd ⟨t, rfl⟩ hne
      · exact ⟨by simp, by simp, fun _ => rfl, hfmt⟩
      · exact ⟨by simp, by simp, fun _ => rfl, hfmt⟩
      · exact ⟨by simp, by simp, fun _ => rfl, hfmt⟩
    · rcases p with t | u | ⟨n, a⟩ | ⟨n, c⟩ <;>
        exact ⟨by simp, by simp, fun _ => rfl, hfmt⟩

/-- C2: for a message whose blocks are all `UserAction`, the rendered parts
are exactly the image of the flattened leaf list (one part per nested leaf,
in original order), with a nested `ToolUse` leaf rendered as the descriptive
text part and a nested `Image` leaf as an `image_url` part. -/
theorem claim_C2_useraction_flatten (messages : List Msg)
    (blocks : List MCBlock)
    (h : ∀ b ∈ blocks, isUserActionContentBlock b = true) :
    messageParts messages blocks =
      some ((blocks.flatMap uaContent).map convertUALeaf) ∧
    ((blocks.flatMap uaContent).map convertUALeaf).length =
      (blocks.flatMap uaContent).length ∧
    (∀ i : Nat, ((blocks.flatMap uaContent).map convertUALeaf)[i]? =
      ((blocks.flatMap uaContent)[i]?).map convertUALeaf) ∧
    (∀ (id name : String) (input : Json),
      convertUALeaf (.uaToolUse id name input) =
        .text ("User performed action: " ++ name ++ "\n" ++
          Json.stringifyPretty input)) ∧
    (∀ mt d : String,
      convertUALeaf (.uaImage mt d) = .image_url (dataUri mt d)) := by
  refine ⟨?_, by simp, ?_, fun _ _ _ => rfl, fun _ _ => rfl⟩
  · unfold messageParts
    rw [if_pos (List.all_eq_true.mpr h)]
  · intro i
    rw [List.getElem?_map]

theorem find?_append_of_none {α : Type} (p : α → Bool) :
    ∀ (l1 l2 : List α), (∀ x ∈ l1, p x = false) →
      List.find? p (l1 ++ l2) = List.find? p l2 := by
  intro l1
  induction l1 with
  | nil => intro l2 _; rfl
  | cons a l ih =>
    intro l2 h
    rw [List.cons_append,
      List.find?_cons_of_neg _ (by simp [h a (by simp)]),
      ih l2 (fun x hx => h x (by simp [hx]))]

theorem getToolName_found (tid : String) (messages : List Msg) (msg : Msg)
    (hfind : List.find?
      (fun m => m.content.any (blockMatchesToolUseId tid)) messages =
        some msg) :
    getToolName tid messages =
      match List.find? (blockMatchesToolUseId tid) msg.content with
      | none => none
      | some b =>
        match b with
        | MCBlock.toolUse _ name _ => some name
        | _ => none := by
  unfold getToolName
  rw [hfind]

/-- C4: `getToolName` scans the history in order and returns the name of the
`ToolUse` block whose id matches, taken from the first message containing
one; it returns `none` when no message contains such a block; and a
`ToolResult` whose `toolUseId` resolves to nothing renders, without error,
with the fallback `function_response` name `"unknown_tool"`. -/
theorem claim_C4_getToolName (tool_use_id : String) (messages : List Msg) :
    ((∀ m ∈ messages, ∀ b ∈ m.content,
        blockMatchesToolUseId tool_use_id b = false) →
      getToolName tool_use_id messages = none) ∧
    (∀ (pre : List Msg) (msg : Msg) (post : List Msg),
      messages = pre ++ msg :: post →
      (∀ m ∈ pre, ∀ b ∈ m.content,
        blockMatchesToolUseId tool_use_id b = false) →
      ∀ (bpre : List MCBlock) (i name : String) (input : Json)
        (bpost : List MCBlock),
        msg.content = bpre ++ MCBlock.toolUse i name input :: bpost →
        i = tool_use_id →
        (∀ b ∈ bpre, blockMatchesToolUseId tool_use_id b = false) →
        getToolName tool_use_id messages = some name) ∧
    (∀ (is_error : Bool) (t : String) (rest : List TRLeaf),
      getToolName tool_use_id messages = none →
      convertBlock messages
        (.toolResult tool_use_id is_error (.trText t :: rest)) =
        some [.function_response "unknown_tool"
          (Json.stringify (trLeafToJson (.trText t)))]) := by
  refine ⟨?_, ?_, ?_⟩
  · intro h
    have hfind : messages.find?
        (fun m => m.content.any (blockMatchesToolUseId tool_use_id)) =
          none := by
      rw [List.find?_eq_none]
      intro m hm
      simp only [List.any_eq_true, not_exists]
      intro b
      rintro ⟨hb, hpred⟩
      rw [h m hm b hb] at hpred
      cases hpred
    unfold getToolName
    rw [hfind]
  · intro pre msg post hsplit hpre bpre i name input bpost hcontent hid hbpre
    subst hsplit
    have hpredtu : blockMatchesToolUseId tool_use_id
        (MCBlock.toolUse i name input) = true := by
      simp [blockMatchesToolUseId, hid]
    have hpremsg : ∀ m ∈ pre,
        (m.content.any (blockMatchesToolUseId tool_use_id)) = false := by
      intro m hm
      rw [List.any_eq_false]
      intro b hb
      simp [hpre m hm b hb]
    have hmsgany : (msg.content.any (blockMatchesToolUseId tool_use_id)) =
        true := by
      rw [List.any_eq_true]
      refine ⟨MCBlock.toolUse i name input, ?_, by simp [hpredtu]⟩
      rw [hcontent]
      simp
    have hfind : List.find?
        (fun m => m.content.any (blockMatchesToolUseId tool_use_id))
        (pre ++ msg :: post) = some msg := by
      rw [find?_append_of_none _ pre _ hpremsg,
        List.find?_cons_of_pos _ (by simpa using hmsgany)]
    rw [getToolName_found tool_use_id (pre ++ msg :: post) msg hfind,
      hcontent, find?_append_of_none _ bpre _ hbpre,
      List.find?_cons_of_pos _ (by simpa using hpredtu)]
  · intro is_error t rest hnone
    have hconv : convertBlock messages
        (.toolResult tool_use_id is_error (.trText t :: rest)) =
        some [.function_response
          (jsOrElse (getToolName tool_use_id messages) "unknown_tool")
          (Json.stringify (trLeafToJson (.trText t)))] := by
      cases is_error <;> rfl
    rw [hconv, hnone]
    rfl

theorem formatMessage_role_ne_system (messages : List Msg) (m : Msg)
    (wm : WireMsg) (h : formatMessage messages m = some wm) :
    wm.role ≠ "system" := by
  unfold formatMessage at h
  cases hmp : messageParts messages m.content with
  | none => rw [hmp] at h; cases h
  | some parts =>
    rw [hmp] at h
    cases h
    show roleToWire m.role ≠ "system"
    unfold roleToWire
    split <;> decide

theorem mapFormatMessages_roles (messages : List Msg) :
    ∀ (ms : List Msg) (wms : List WireMsg),
      mapFormatMessages messages ms = some wms →
      ∀ wm ∈ wms, wm.role ≠ "system" := by
  intro ms
  induction ms with
  | nil =>
    intro wms h wm hwm
    rw [show mapFormatMessages messages [] = some [] from rfl] at h
    cases h
    simp at hwm
  | cons m ms ih =>
    intro wms h wm hwm
    rw [show mapFormatMessages messages (m :: ms) =
      (match formatMessage messages m with
       | none => none
       | some wm2 =>
         match mapFormatMessages messages ms with
         | none => none
         | some wms2 => some (wm2 :: wms2)) from rfl] at h
    cases hfm : formatMessage messages m with
    | none => rw [hfm] at h; cases h
    | some wm2 =>
      rw [hfm] at h
      cases hrec : mapFormatMessages messages ms with
      | none => rw [hrec] at h; cases h
      | some wms2 =>
        rw [hrec] at h
        cases h
        rcases List.mem_cons.mp hwm with rfl | hmem
        · exact formatMessage_role_ne_system messages m wm hfm
        · exact ih wms2 hrec wm hmem

/-- C6: when the system prompt is non-empty, the built wire message list is
exactly one `system` message carrying the prompt followed by the rendered
conversation messages, none of which has role `"system"` (so the system
message is first and unique); when the prompt is empty, no system message is
emitted. -/
theorem claim_C6_system_message (messages : List Msg) (systemPrompt : String)
    (wms : List WireMsg)
    (h : formatMessagesForVllm messages systemPrompt = some wms) :
    (systemPrompt ≠ "" →
      ∃ rest, wms =
          WireMsg.mk "system" (WireContent.str systemPrompt) :: rest ∧
        mapFormatMessages messages messages = some rest ∧
        ∀ wm ∈ rest, wm.role ≠ "system") ∧
    (systemPrompt = "" →
      mapFormatMessages messages messages = some wms ∧
      ∀ wm ∈ wms, wm.role ≠ "system") := by
  unfold formatMessagesForVllm at h
  cases hmap : mapFormatMessages messages messages with
  | none => rw [hmap] at h; cases h
  | some wms2 =>
    rw [hmap] at h
    cases h
    constructor
    · intro hne
      rw [if_neg hne]
      exact ⟨wms2, by simp, rfl,
        mapFormatMessages_roles messages messages wms2 hmap⟩
    · intro heq
      rw [if_pos heq]
      exact ⟨by simp, by
        simpa using mapFormatMessages_roles messages messages wms2 hmap⟩

/-! ## Response parser lemmas and claim theorems -/

theorem convertRespPart_text_ok (ids : Nat → String) (k : Nat) (t : String)
    (hne : t ≠ "") :
    convertRespPart ids k (RespPart.mk "text" (some t) none) =
      .ok (.text t, k) := by
  unfold convertRespPart
  rw [if_pos ⟨rfl, by simp [jsTruthyStr, hne]⟩]
  rfl

theorem convertRespPart_fc_ok (ids : Nat → String) (k : Nat) (p : RespPart)
    (fc : RespFC) (v : Json) (htype : p.type = "function_call")
    (hfc : p.function_call = some fc)
    (hok : JSONparse fc.arguments = some v) :
    convertRespPart ids k p = .ok (.toolUse (ids k) fc.name v, k + 1) := by
  unfold convertRespPart
  rw [if_neg (by rw [htype]; rintro ⟨h1, -⟩; exact absurd h1 (by decide)),
    hfc]
  simp [htype, hok]

theorem convertRespPart_malformed (ids : Nat → String) (k : Nat)
    (p : RespPart) (fc : RespFC) (htype : p.type = "function_call")
    (hfc : p.function_call = some fc)
    (hbad : JSONparse fc.arguments = none) :
    convertRespPart ids k p = .error .malformedArguments := by
  unfold convertRespPart
  rw [if_neg (by rw [htype]; rintro ⟨h1, -⟩; exact absurd h1 (by decide)),
    hfc]
  simp [htype, hbad]

theorem convertRespParts_error (ids : Nat → String) :
    ∀ (ps : List RespPart) (k : Nat) (p : RespPart) (fc : RespFC),
      p ∈ ps → p.type = "function_call" → p.function_call = some fc →
      JSONparse fc.arguments = none →
      convertRespParts ids k ps = .error .malformedArguments := by
  intro ps
  induction ps with
  | nil =>
    intro k p fc hmem
    simp at hmem
  | cons q qs ih =>
    intro k p fc hmem htype hfc hbad
    rw [show convertRespParts ids k (q :: qs) =
      (match convertRespPart ids k q with
       | .error e => .error e
       | .ok (b, k2) =>
         match convertRespParts ids k2 qs with
         | .error e => .error e
         | .ok bs => .ok (b :: bs)) from rfl]
    rcases List.mem_cons.mp hmem with rfl | hmem2
    · rw [convertRespPart_malformed ids k p fc htype hfc hbad]
    · cases hq : convertRespPart ids k q with
      | error e => cases e; rfl
      | ok bk =>
        obtain ⟨b, k2⟩ := bk
        simp only [ih k2 p fc hmem2 htype hfc hbad]

/-- C7: a well-formed `function_call` part converts to a `ToolUse` block
carrying the next fresh identifier from the supply, the call's name and its
arguments string parsed as JSON; when the arguments string is not valid
JSON the conversion is the hard `malformedArguments` error, and any part
list containing such a part makes the whole response parse fail with that
error (the failure is surfaced, not swallowed). -/
theorem claim_C7_function_call (ids : Nat → String) (k : Nat) (p : RespPart)
    (fc : RespFC) (htype : p.type = "function_call")
    (hfc : p.function_call = some fc) :
    (∀ v, JSONparse fc.arguments = some v →
      convertRespPart ids k p = .ok (.toolUse (ids k) fc.name v, k + 1)) ∧
    (JSONparse fc.arguments = none →
      convertRespPart ids k p = .error .malformedArguments) ∧
    (∀ ps : List RespPart, JSONparse fc.arguments = none → p ∈ ps →
      formatVllmResponse ids (.parts ps) = .error .malformedArguments) := by
  refine ⟨?_, ?_, ?_⟩
  · intro v hok
    exact convertRespPart_fc_ok ids k p fc v htype hfc hok
  · intro hbad
    exact convertRespPart_malformed ids k p fc htype hfc hbad
  · intro ps hbad hmem
    exact convertRespParts_error ids ps 0 p fc hmem htype hfc hbad

/-- C8: a wire part that is neither a text part with non-empty text nor a
well-formed `function_call` part never makes the parser fail: it converts,
without consuming a fresh identifier, to a `Text` block holding the JSON
serialization of the part, and a response consisting of such a part parses
successfully. -/
theorem claim_C8_unknown_parts (ids : Nat → String) (k : Nat) (p : RespPart)
    (h1 : ¬ (p.type = "text" ∧ jsTruthyStr p.text = true))
    (h2 : ¬ (p.type = "function_call" ∧ p.function_call.isSome = true)) :
    convertRespPart ids k p =
      .ok (.text (Json.stringify (respPartToJson p)), k) ∧
    formatVllmResponse ids (.parts [p]) =
      .ok [.text (Json.stringify (respPartToJson p))] := by
  have hp : ∀ k2 : Nat, convertRespPart ids k2 p =
      .ok (.text (Json.stringify (respPartToJson p)), k2) := by
    intro k2
    unfold convertRespPart
    rw [if_neg h1]
    cases hfc : p.function_call with
    | none => rfl
    | some fc =>
      have hty : p.type ≠ "function_call" :=
        fun ht => h2 ⟨ht, by rw [hfc]; rfl⟩
      simp [hty]
  refine ⟨hp k, ?_⟩
  rw [show formatVllmResponse ids (.parts [p]) =
    (match convertRespPart ids 0 p with
     | .error e => .error e
     | .ok (b, k2) =>
       match convertRespParts ids k2 [] with
       | .error e => .error e
       | .ok bs => .ok (b :: bs)) from rfl, hp 0]
  rfl

theorem convertRespParts_roundtrip (ids : Nat → String) (messages : List Msg) :
    ∀ (blocks : List MCBlock) (parts : List WirePart) (k : Nat),
      (∀ b ∈ blocks, isTextOrToolUse b = true) →
      (∀ b ∈ blocks, hasNonemptyText b = true) →
      convertBlocksFlat messages blocks = some parts →
      ∃ out, convertRespParts ids k (parts.map wireToResp) = .ok out ∧
        List.Forall₂ blockEquiv blocks out := by
  intro blocks
  induction blocks with
  | nil =>
    intro parts k _ _ hconv
    rw [show convertBlocksFlat messages [] = some [] from rfl] at hconv
    cases hconv
    exact ⟨[], rfl, List.Forall₂.nil⟩
  | cons b bs ih =>
    intro parts k hshape hne hconv
    rw [show convertBlocksFlat messages (b :: bs) =
      (match convertBlock messages b with
       | none => none
       | some ps =>
         match convertBlocksFlat messages bs with
         | none => none
         | some rest => some (ps ++ rest)) from rfl] at hconv
    cases b with
    | text t =>
      rw [show convertBlock messages (.text t) = some [WirePart.text t]
        from rfl] at hconv
      cases hrec : convertBlocksFlat messages bs with
      | none => rw [hrec] at hconv; cases hconv
      | some restp =>
        rw [hrec] at hconv
        cases hconv
        have htne : t ≠ "" := by
          have h := hne (.text t) (by simp)
          by_cases he : t = ""
          · rw [show hasNonemptyText (.text t) = if t = "" then false
              else true from rfl, if_pos he] at h
            cases h
          · exact he
        obtain ⟨out, hout, heqv⟩ := ih restp k
          (fun b2 hb2 => hshape b2 (by simp [hb2]))
          (fun b2 hb2 => hne b2 (by simp [hb2])) hrec
        refine ⟨.text t :: out, ?_, List.Forall₂.cons rfl heqv⟩
        rw [show ([WirePart.text t] ++ restp).map wireToResp =
          wireToResp (WirePart.text t) :: restp.map wireToResp from by simp]
        rw [show convertRespParts ids k
          (wireToResp (WirePart.text t) :: restp.map wireToResp) =
          (match convertRespPart ids k (wireToResp (WirePart.text t)) with
           | .error e => .error e
           | .ok (b2, k2) =>
             match convertRespParts ids k2 (restp.map wireToResp) with
             | .error e => .error e
             | .ok bs2 => .ok (b2 :: bs2)) from rfl]
        rw [show wireToResp (WirePart.text t) =
          RespPart.mk "text" (some t) none from rfl,
          convertRespPart_text_ok ids k t htne]
        simp [hout]
    | toolUse id name input =>
      rw [show convertBlock messages (.toolUse id name input) =
        some [WirePart.function_call name (Json.stringify input)]
        from rfl] at hconv
      cases hrec : convertBlocksFlat messages bs with
      | none => rw [hrec] at hconv; cases hconv
      | some restp =>
        rw [hrec] at hconv
        cases hconv
        obtain ⟨out, hout, heqv⟩ := ih restp (k + 1)
          (fun b2 hb2 => hshape b2 (by simp [hb2]))
          (fun b2 hb2 => hne b2 (by simp [hb2])) hrec
        refine ⟨.toolUse (ids k) name input :: out, ?_,
          List.Forall₂.cons ⟨rfl, rfl⟩ heqv⟩
        rw [show ([WirePart.function_call name (Json.stringify input)] ++
            restp).map wireToResp =
          wireToResp (WirePart.function_call name (Json.stringify input)) ::
            restp.map wireToResp from by simp]
        rw [show convertRespParts ids k
          (wireToResp (WirePart.function_call name (Json.stringify input)) ::
            restp.map wireToResp) =
          (match convertRespPart ids k
            (wireToResp (WirePart.function_call name
              (Json.stringify input))) with
           | .error e => .error e
           | .ok (b2, k2) =>
             match convertRespParts ids k2 (restp.map wireToResp) with
             | .error e => .error e
             | .ok bs2 => .ok (b2 :: bs2)) from rfl]
        rw [convertRespPart_fc_ok ids k
          (wireToResp (WirePart.function_call name (Json.stringify input)))
          (RespFC.mk name (Json.stringify input)) input rfl rfl
          (json_parse_stringify input)]
        simp [hout]
    | image mt d =>
      have h := hshape (.image mt d) (by simp)
      cases h
    | toolResult tid e c =>
      have h := hshape (.toolResult tid e c) (by simp)
      cases h
    | userAction c =>
      have h := hshape (.userAction c) (by simp)
      cases h

/-- C1 (amended): for a sequence of `Text` and `ToolUse` blocks in which
every `Text` block has non-empty text, converting through the request
formatter's per-block conversion and parsing the resulting parts back
recovers blocks structurally equivalent to the originals — `Text` text and
`ToolUse` name/input are preserved while tool-use identifiers are freshly
drawn from the supply.  (The empty-text restriction is forced: see the
counterexample.) -/
theorem claim_C1_roundtrip_amended (ids : Nat → String) (messages : List Msg)
    (blocks : List MCBlock) (parts : List WirePart)
    (hshape : ∀ b ∈ blocks, isTextOrToolUse b = true)
    (hne : ∀ b ∈ blocks, hasNonemptyText b = true)
    (hconv : convertBlocksFlat messages blocks = some parts) :
    ∃ out, formatVllmResponse ids (.parts (parts.map wireToResp)) = .ok out ∧
      List.Forall₂ blockEquiv blocks out :=
  convertRespParts_roundtrip ids messages blocks parts 0 hshape hne hconv

/-- C1 (counterexample): the round trip fails as originally stated.  The
single block `Text ""` converts to a text part with empty text; the
response parser's truthiness guard rejects it and degrades it to a `Text`
block holding the JSON serialization of the part, which is not equivalent
to the original. -/
theorem claim_C1_counterexample :
    convertBlocksFlat [] [MCBlock.text ""] = some [WirePart.text ""] ∧
    formatVllmResponse (fun _ => "fresh-id")
      (.parts ([WirePart.text ""].map wireToResp)) =
      .ok [MCBlock.text "\x7b\"type\":\"text\",\"text\":\"\"\x7d"] ∧
    ¬ List.Forall₂ blockEquiv [MCBlock.text ""]
      [MCBlock.text "\x7b\"type\":\"text\",\"text\":\"\"\x7d"] := by
  refine ⟨rfl, rfl, ?_⟩
  intro hf
  cases hf with
  | cons heq _ =>
    exact (by decide :
      ("" : String) ≠ "\x7b\"type\":\"text\",\"text\":\"\"\x7d") heq

/-! ## Concrete witnesses -/

theorem claim_C1_roundtrip_amended_witness :
    ∃ out, formatVllmResponse (fun _ => "new-id")
        (.parts ([WirePart.text "hi",
          WirePart.function_call "click_mouse" "\x7b\"x\":1\x7d"].map
            wireToResp)) = .ok out ∧
      List.Forall₂ blockEquiv
        [MCBlock.text "hi",
         MCBlock.toolUse "old-id" "click_mouse" (jobj [("x", Json.num 1)])]
        out :=
  claim_C1_roundtrip_amended (fun _ => "new-id") []
    [MCBlock.text "hi",
     MCBlock.toolUse "old-id" "click_mouse" (jobj [("x", Json.num 1)])]
    [WirePart.text "hi",
     WirePart.function_call "click_mouse" "\x7b\"x\":1\x7d"]
    (by decide) (by decide) rfl

theorem claim_C2_useraction_flatten_witness :
    messageParts []
      [MCBlock.userAction
        [UALeaf.uaToolUse "i1" "click" (jobj [("x", Json.num 1)]),
         UALeaf.uaImage "image/png" "QUJD"]] =
      some [WirePart.text
          "User performed action: click\n\x7b\n  \"x\": 1\n\x7d",
        WirePart.image_url "data:image/png;base64,QUJD"] :=
  ((claim_C2_useraction_flatten []
    [MCBlock.userAction
      [UALeaf.uaToolUse "i1" "click" (jobj [("x", Json.num 1)]),
       UALeaf.uaImage "image/png" "QUJD"]] (by decide)).1).trans (by rfl)

theorem claim_C4_getToolName_witness :
    getToolName "tu-1"
      [Msg.mk Role.ASSISTANT
        [MCBlock.toolUse "tu-1" "click_mouse" Json.null]] =
      some "click_mouse" ∧
    convertBlock []
      (MCBlock.toolResult "missing" false [TRLeaf.trText "ok"]) =
      some [WirePart.function_response "unknown_tool"
        (Json.stringify (trLeafToJson (TRLeaf.trText "ok")))] :=
  ⟨(claim_C4_getToolName "tu-1"
      [Msg.mk Role.ASSISTANT
        [MCBlock.toolUse "tu-1" "click_mouse" Json.null]]).2.1
    [] (Msg.mk Role.ASSISTANT
      [MCBlock.toolUse "tu-1" "click_mouse" Json.null]) []
    rfl (by simp) [] "tu-1" "click_mouse" Json.null [] rfl rfl (by simp),
   (claim_C4_getToolName "missing" []).2.2 false "ok" [] rfl⟩

theorem claim_C5_collapse_witness :
    collapse [WirePart.text "hello"] = WireContent.str "hello" ∧
    collapse [] = WireContent.parts [] ∧
    collapse [WirePart.image_url "u"] =
      WireContent.parts [WirePart.image_url "u"] :=
  ⟨(claim_C5_collapse [WirePart.text "hello"]).2.1 "hello" rfl,
   (claim_C5_collapse []).2.2.1 (by simp),
   (claim_C5_collapse [WirePart.image_url "u"]).2.2.1 (by simp)⟩

theorem claim_C6_system_message_witness :
    ∃ rest, [WireMsg.mk "system" (WireContent.str "sys"),
             WireMsg.mk "user" (WireContent.str "hello")] =
        WireMsg.mk "system" (WireContent.str "sys") :: rest ∧
      mapFormatMessages [Msg.mk Role.USER [MCBlock.text "hello"]]
        [Msg.mk Role.USER [MCBlock.text "hello"]] = some rest ∧
      ∀ wm ∈ rest, wm.role ≠ "system" :=
  (claim_C6_system_message [Msg.mk Role.USER [MCBlock.text "hello"]] "sys"
    [WireMsg.mk "system" (WireContent.str "sys"),
     WireMsg.mk "user" (WireContent.str "hello")] rfl).1 (by decide)

theorem claim_C7_function_call_witness :
    convertRespPart (fun _ => "fresh") 0
      (RespPart.mk "function_call" none
        (some (RespFC.mk "click_mouse" "\x7b\"x\":1,\"y\":2\x7d"))) =
      .ok (.toolUse "fresh" "click_mouse"
        (jobj [("x", Json.num 1), ("y", Json.num 2)]), 1) ∧
    formatVllmResponse (fun _ => "fresh")
      (.parts [RespPart.mk "function_call" none
        (some (RespFC.mk "bad" "\x7bbad json"))]) =
      .error .malformedArguments :=
  ⟨(claim_C7_function_call (fun _ => "fresh") 0
      (RespPart.mk "function_call" none
        (some (RespFC.mk "click_mouse" "\x7b\"x\":1,\"y\":2\x7d")))
      (RespFC.mk "click_mouse" "\x7b\"x\":1,\"y\":2\x7d") rfl rfl).1
    (jobj [("x", Json.num 1), ("y", Json.num 2)]) (by rfl),
   (claim_C7_function_call (fun _ => "fresh") 0
      (RespPart.mk "function_call" none
        (some (RespFC.mk "bad" "\x7bbad json")))
      (RespFC.mk "bad" "\x7bbad json") rfl rfl).2.2
    [RespPart.mk "function_call" none (some (RespFC.mk "bad" "\x7bbad json"))]
    (by rfl) (by simp)⟩

theorem claim_C8_unknown_parts_witness :
    convertRespPart (fun _ => "fresh") 0 (RespPart.mk "image_url" none none) =
      .ok (.text "\x7b\"type\":\"image_url\"\x7d", 0) :=
  ((claim_C8_unknown_parts (fun _ => "fresh") 0
    (RespPart.mk "image_url" none none) (by decide) (by decide)).1).trans
    (by rfl)
